import Mathlib

/-!
Verification development for the magma reverse proxy.

The Rust source is embedded shallowly:

* machine integers are modelled as `Nat` bit patterns (an `i32` is a `Nat`
  below `2^32`, reinterpreted as a signed value by `i32val`), with wrapping
  made explicit through `% 2 ^ 32`;
* byte streams are `List Nat` (each element a byte below 256; readers reduce
  elements modulo 256 exactly where the Rust reads a `u8`);
* fallible readers return `Except`/`Option`; a Rust panic and a
  non-terminating loop are separate constructors of explicit result types;
* the two Rust loops that need not terminate for every input
  (`var_int_length`, whose arithmetic shift never clears the sign bit of a
  negative argument, and the bounded `write_var_int` loop) take an explicit
  fuel argument; `write_var_int` always finishes within 5 iterations for a
  32-bit value, so fuel 5 is exact for it;
* the third-party pieces (the AES/CFB-8 cipher from the `aes`/`cfb8` crates
  and the zlib inflater from `miniz_oxide`) are parameters: an abstract
  per-byte cipher step `step` and an abstract `inflate` function.
-/

namespace Magma

/-- Reinterpret an `i32` bit pattern (a `Nat` below `2^32`) as a signed value. -/
def i32val (n : Nat) : Int :=
  if n < 2 ^ 31 then (n : Int) else (n : Int) - 2 ^ 32

/-- Bit pattern (two's complement) of a signed 32-bit value, as in `value as u32`. -/
def i32bits (v : Int) : Nat :=
  (v % (2 ^ 32 : Int)).toNat

/-- Models `as usize` applied to an `i32`: sign extension to 64 bits. -/
def usizeOfI32 (n : Nat) : Nat :=
  ((i32val n) % (2 ^ 64 : Int)).toNat

/-- Error cases of the stream readers in `src/io/sync.rs` (`anyhow` errors in the source). -/
inductive IoError
  | eof
  | varIntTooLong
  | emptyPacket
deriving DecidableEq

/-- Loop of `ProtocolReadExt::read_var_int` (src/io/sync.rs:24-44): reads one byte per
iteration, ORs its low 7 bits into `result` shifted by `7 * num_read`
(`overflowing_shl` takes the shift modulo 32 and keeps the low 32 bits), increments
`num_read`, fails once `num_read > 5`, and stops when the continuation bit is clear. -/
def readVarIntAux : List Nat → Nat → Nat → Except IoError (Nat × List Nat)
  | [], _, _ => .error .eof
  | b :: rest, numRead, result =>
    let byte := b % 256
    let value := byte % 128
    let result' := result ||| ((value <<< ((7 * numRead) % 32)) % 2 ^ 32)
    if numRead + 1 > 5 then .error .varIntTooLong
    else if byte < 128 then .ok (result', rest)
    else readVarIntAux rest (numRead + 1) result'

/-- Models `ProtocolReadExt::read_var_int`, returning the decoded `i32` bit pattern
and the unconsumed remainder of the stream. -/
def readVarInt (input : List Nat) : Except IoError (Nat × List Nat) :=
  readVarIntAux input 0 0

/-- Loop of `ProtocolWriteExt::write_var_int` (src/io/sync.rs:129-143): emits the low
7 bits of `x`, shifts `x` right by 7, sets the continuation bit when more remains,
and stops once `x` is zero.  The do-while loop runs at most 5 times for a `u32`
(each iteration divides by 128), so the explicit fuel below is never exhausted
when the function is entered with fuel 5 and a value below `2^32`. -/
def writeVarIntAux : Nat → Nat → List Nat
  | 0, _ => []
  | fuel + 1, x =>
    let temp := x % 128
    if x / 128 = 0 then [temp] else (temp + 128) :: writeVarIntAux fuel (x / 128)

/-- Models `ProtocolWriteExt::write_var_int` on the `u32` bit pattern of its `i32`
argument (`let mut x = value as u32`). -/
def writeVarInt (value : Nat) : List Nat :=
  writeVarIntAux 5 (value % 2 ^ 32)

/-- Loop of `var_int_length` (src/io/mod.rs:125-138) with explicit fuel.  The Rust
loop performs an arithmetic shift `x >>= 7` on an `i32` (floor division by 128 on
the signed value) and stops only when `x` reaches zero; for a negative argument the
shift converges to `-1` and never reaches zero, so no amount of fuel suffices —
`none` models that the loop has not finished within `fuel` iterations. -/
def varIntLengthAux : Nat → Int → Nat → Option Nat
  | 0, _, _ => none
  | fuel + 1, x, size =>
    let x' := Int.fdiv x 128
    if x' = 0 then some size
    else varIntLengthAux fuel x' (size + 1)

/-- Models `var_int_length` (src/io/mod.rs): the size starts at 1 and grows by one
per extra shift of 7 bits. -/
def varIntLength (fuel : Nat) (x : Int) : Option Nat :=
  varIntLengthAux fuel x 1

/-- Models `UncompressedPacket` (src/io/mod.rs:22-27); `id` is an `i32` bit pattern. -/
structure UncompressedPacket where
  id : Nat
  data : List Nat
deriving DecidableEq

/-- Models `ProtocolWriteExt::write_uncompressed_packet` (src/io/sync.rs:174-179).
The source writes the varint `(packet.data.len() + id_length) as i32`, then the
varint id, and returns — the payload bytes `packet.data` are never written.
`none` models divergence of the internal `var_int_length` call. -/
def writeUncompressedPacket (fuel : Nat) (packet : UncompressedPacket) : Option (List Nat) :=
  match varIntLength fuel (i32val packet.id) with
  | none => none
  | some idLength =>
    some (writeVarInt (packet.data.length + idLength) ++ writeVarInt packet.id)

/-- Outcome of `read_uncompressed_packet`: a packet with the unconsumed remainder,
a read error, a panic (the `length - var_int_length(id)` usize underflow), or
divergence of `var_int_length`. -/
inductive ReadPacketResult
  | ok (packet : UncompressedPacket) (rest : List Nat)
  | err (e : IoError)
  | panicked
  | diverged
deriving DecidableEq

/-- Models `ProtocolReadExt::read_uncompressed_packet` (src/io/sync.rs:86-101):
reads the varint length (`as usize`), rejects zero, reads the varint id, computes
`data_length = length - var_int_length(id)` (usize subtraction: underflow is the
`panicked` outcome), and reads exactly `data_length` payload bytes. -/
def readUncompressedPacket (fuel : Nat) (input : List Nat) : ReadPacketResult :=
  match readVarInt input with
  | .error e => .err e
  | .ok (len, r1) =>
    let length := usizeOfI32 len
    if length = 0 then .err .emptyPacket
    else
      match readVarInt r1 with
      | .error e => .err e
      | .ok (id, r2) =>
        match varIntLength fuel (i32val id) with
        | none => .diverged
        | some idLength =>
          if length < idLength then .panicked
          else
            let dataLength := length - idLength
            if r2.length < dataLength then .err .eof
            else .ok ⟨id, r2.take dataLength⟩ (r2.drop dataLength)

/-- Models `CompressedPacket` (src/io/mod.rs:51-58); the two lengths are `i32`
bit patterns. -/
structure CompressedPacket where
  packetLength : Nat
  dataLength : Nat
  compressedData : List Nat
deriving DecidableEq

/-- Models `ProtocolReadExt::read_compressed_packet` (src/io/sync.rs:104-117):
reads the two varints and then exactly `data_length as usize` raw bytes, whatever
`data_length` is — in particular zero bytes when `data_length == 0`. -/
def readCompressedPacket (input : List Nat) : Except IoError (CompressedPacket × List Nat) :=
  match readVarInt input with
  | .error e => .error e
  | .ok (packetLength, r1) =>
    match readVarInt r1 with
    | .error e => .error e
    | .ok (dataLength, r2) =>
      let n := usizeOfI32 dataLength
      if r2.length < n then .error .eof
      else .ok (⟨packetLength, dataLength, r2.take n⟩, r2.drop n)

/-- Outcome of `CompressedPacket::decompress`: a packet, an error (inflation
failure or an unreadable id), a panic (the `drain` range exceeding the data), or
divergence of `var_int_length`. -/
inductive DecompressResult
  | ok (packet : UncompressedPacket)
  | err
  | panicked
  | diverged
deriving DecidableEq

/-- Models `CompressedPacket::decompress` (src/io/mod.rs:68-80).  The zlib
inflater from `miniz_oxide` is the abstract parameter `inflate` (`none` models
its error).  When `data_length == 0` the body is used verbatim; otherwise it is
inflated.  In both cases the leading varint packet id is then read and
`var_int_length(id)` bytes are drained from the front of the data. -/
def CompressedPacket.decompress (fuel : Nat) (inflate : List Nat → Option (List Nat))
    (packet : CompressedPacket) : DecompressResult :=
  let inflated := if packet.dataLength = 0 then some packet.compressedData
                  else inflate packet.compressedData
  match inflated with
  | none => .err
  | some data =>
    match readVarInt data with
    | .error _ => .err
    | .ok (id, _) =>
      match varIntLength fuel (i32val id) with
      | none => .diverged
      | some idLength =>
        if data.length < idLength then .panicked
        else .ok ⟨id, data.drop idLength⟩

/-- Models the `Cryptor` enum (src/cryptor.rs:16-26).  The AES-128/CFB-8 stream
states of the `aes`/`cfb8` crates are abstracted to a type `σ`; the byte buffers
are kept explicitly. -/
inductive Cryptor (σ : Type)
  | uninitialized
  | initialized (encryptor : σ) (decryptor : σ) (inbuffer : List Nat) (outbuffer : List Nat)
deriving DecidableEq

/-- Byte-by-byte stateful decryption: the abstract CFB-8 cipher `step` maps one
ciphertext byte to one plaintext byte and the successor stream state. -/
def decryptBytes {σ : Type} (step : σ → Nat → Nat × σ) : σ → List Nat → List Nat × σ
  | s, [] => ([], s)
  | s, b :: rest =>
    let (p, s') := step s b
    let (ps, s'') := decryptBytes step s' rest
    (p :: ps, s'')

/-- Outcome of `Cryptor::next_packet`: a panic (uninitialized cryptor, or a call
whose slice is not one CFB-8 block of one byte), a propagated read error, an
incomplete packet (`Ok(None)`), or a packet (`Ok(Some(..))`); the last three carry
the cryptor state after the call. -/
inductive NextPacketResult (σ : Type)
  | panicked
  | fail (e : IoError) (state : Cryptor σ)
  | incomplete (state : Cryptor σ)
  | packet (bytes : List Nat) (state : Cryptor σ)
deriving DecidableEq

/-- Models `Cryptor::next_packet` (src/cryptor.rs:40-66): decrypts `data` in place
(`decrypt_block_mut` consumes exactly one CFB-8 block, i.e. one byte; any other
slice length panics in `data.into()`), appends the plaintext to the inbound
buffer, reads a varint packet length from a cursor over the buffer (a read error
propagates through `?`), returns `Ok(None)` when fewer than `packet_length` bytes
follow the varint, and otherwise returns those bytes after draining
`buffer[0..packet_length]` — the body length only, not the varint itself. -/
def Cryptor.nextPacket {σ : Type} (step : σ → Nat → Nat × σ) :
    Cryptor σ → List Nat → NextPacketResult σ
  | .uninitialized, _ => .panicked
  | .initialized enc dec inbuffer outbuffer, data =>
    if data.length ≠ 1 then .panicked
    else
      let (plain, dec') := decryptBytes step dec data
      let buffer := inbuffer ++ plain
      match readVarInt buffer with
      | .error e => .fail e (.initialized enc dec' buffer outbuffer)
      | .ok (len, rest) =>
        let packetLength := usizeOfI32 len
        if rest.length < packetLength then .incomplete (.initialized enc dec' buffer outbuffer)
        else .packet (rest.take packetLength)
          (.initialized enc dec' (buffer.drop packetLength) outbuffer)

/-- Models `Cryptor::new` (src/cryptor.rs:30-37): both directions are seeded from
the same key (`Decryptor::new(key.into(), key.into())` uses the shared secret as
key and initialization vector alike; `mk` abstracts that constructor), and both
buffers start empty. -/
def Cryptor.new {σ : Type} (mk : List Nat → σ) (key : List Nat) : Cryptor σ :=
  .initialized (mk key) (mk key) [] []

/-- Models `Cryptor::encrypt_packet` (src/cryptor.rs:69-71).  The source body is
a bare todo macro, which panics unconditionally on every call; the model therefore
never returns a value. -/
def Cryptor.encryptPacket {σ : Type} : Cryptor σ → List Nat → Option (List Nat) :=
  fun _ _ => none

/-- Models `RoundRobinSelector` (src/proxy.rs:31-34). -/
structure RoundRobinSelector (α : Type) where
  targets : List α
  index : Nat
deriving DecidableEq

/-- Models `RoundRobinSelector::new` (src/proxy.rs:37-39): accepts any target
list, including the empty one, and starts at index 0. -/
def RoundRobinSelector.new {α : Type} (targets : List α) : RoundRobinSelector α :=
  ⟨targets, 0⟩

/-- Models `RoundRobinSelector::next_target` (src/proxy.rs:45-49): returns
`targets[index]` (`none` models the index-out-of-bounds panic, reached on an
empty target list) and advances the index modulo the list length. -/
def RoundRobinSelector.nextTarget {α : Type} (s : RoundRobinSelector α) :
    Option (α × RoundRobinSelector α) :=
  match s.targets[s.index]? with
  | none => none
  | some target => some (target, ⟨s.targets, (s.index + 1) % s.targets.length⟩)

/-- Repeated selection: `run s n` is the outcome of the `(n+1)`-st call to
`next_target`, threading the selector state through the first `n` calls. -/
def RoundRobinSelector.run {α : Type} (s : RoundRobinSelector α) :
    Nat → Option (α × RoundRobinSelector α)
  | 0 => s.nextTarget
  | n + 1 =>
    match s.nextTarget with
    | none => none
    | some (_, s') => s'.run n

/-- Models `RandomSelector` (src/proxy.rs:52-54). -/
structure RandomSelector (α : Type) where
  targets : List α
deriving DecidableEq

/-- Models `RandomSelector::new` (src/proxy.rs:57-59): accepts any target list. -/
def RandomSelector.new {α : Type} (targets : List α) : RandomSelector α :=
  ⟨targets⟩

/-- Models `RandomSelector::next_target` (src/proxy.rs:65-68).  The draw of
`thread_rng().gen_range(0..len)` is the oracle argument `pick` (a value below
`len` for a genuine rng); `gen_range` panics on the empty range `0..0`, modelled
by `none` for an empty target list. -/
def RandomSelector.nextTarget {α : Type} (s : RandomSelector α) (pick : Nat) : Option α :=
  if s.targets.length = 0 then none
  else s.targets[pick]?

/-- Models the target computation for one proxy entry in `ConfigV1::build`
(src/config/v1.rs:86-97): a single `target` takes priority over the `targets`
list, and an entry whose computed target list is empty is skipped (`none`) —
no route is built from it. -/
structure ProxyEntry (α : Type) where
  target : Option α
  targets : List α
deriving DecidableEq

/-- Route targets produced by `ConfigV1::build` for one entry, or `none` when the
entry is ignored because it has no targets. -/
def ProxyEntry.routeTargets {α : Type} (entry : ProxyEntry α) : Option (List α) :=
  let ts := match entry.target with
    | some t => [t]
    | none => entry.targets
  if ts.isEmpty then none else some ts

/-- Models the selection in `handle` (src/proxy.rs:135): `route.to.first().unwrap()`;
`none` models the unwrap panic on an empty list. -/
def handleTarget {α : Type} (routeTo : List α) : Option α :=
  routeTo.head?

/-! ### Helper lemmas about the varint codec -/

/-- Fuel at least 1 makes the do-while encoder emit at least one byte. -/
theorem writeVarIntAux_length_pos (fuel x : Nat) : 0 < (writeVarIntAux (fuel + 1) x).length := by
  simp only [writeVarIntAux]
  split <;> simp

/-- Core round-trip invariant: decoding the encoder's output for the remaining
value `x`, having already consumed `k` bytes that accumulated `acc`, yields
`acc + x * 2 ^ (7 * k)` and leaves the trailing bytes untouched. -/
theorem readVarIntAux_writeVarIntAux :
    ∀ (fuel k acc x : Nat) (rest : List Nat),
      fuel + k = 5 → k ≤ 4 → acc < 2 ^ (7 * k) → x < 2 ^ (32 - 7 * k) →
      readVarIntAux (writeVarIntAux fuel x ++ rest) k acc =
        .ok (acc + x * 2 ^ (7 * k), rest) := by
  intro fuel
  induction fuel with
  | zero => intro k acc x rest hfk hk _ _; omega
  | succ fuel ih =>
    intro k acc x rest hfk hk hacc hx
    have hkshift : 7 * k % 32 = 7 * k := Nat.mod_eq_of_lt (by omega)
    have hpow : 2 ^ (32 - 7 * k) * 2 ^ (7 * k) = 2 ^ 32 := by
      rw [← pow_add]; congr 1; omega
    have hpos : 0 < 2 ^ (7 * k) := Nat.pos_pow_of_pos _ (by omega)
    by_cases hx0 : x / 128 = 0
    · have hxlt : x < 128 := by omega
      have hxmod : x % 128 = x := Nat.mod_eq_of_lt hxlt
      have hx32 : x * 2 ^ (7 * k) < 2 ^ 32 := by
        calc x * 2 ^ (7 * k) < 2 ^ (32 - 7 * k) * 2 ^ (7 * k) := by
              exact (Nat.mul_lt_mul_right hpos).mpr hx
          _ = 2 ^ 32 := hpow
      have hor : acc ||| x * 2 ^ (7 * k) = acc + x * 2 ^ (7 * k) := by
        rw [Nat.or_comm, mul_comm x (2 ^ (7 * k)),
          ← Nat.mul_add_lt_is_or hacc x, Nat.add_comm, mul_comm]
      simp only [writeVarIntAux, hx0, if_pos rfl, List.cons_append, List.nil_append,
        readVarIntAux, hxmod]
      rw [if_neg (by omega : ¬ (k + 1 > 5)),
        if_pos (by omega : x % 256 < 128)]
      have hb : x % 256 = x := Nat.mod_eq_of_lt (by omega)
      simp only [hb, hxmod, hkshift, Nat.shiftLeft_eq, Nat.mod_eq_of_lt hx32, hor]
      rfl
    · have hx128 : 128 ≤ x := by omega
      have hk3 : k ≤ 3 := by
        by_contra hk4
        have hk4' : k = 4 := by omega
        subst hk4'
        simp only [show 32 - 7 * 4 = 4 from rfl] at hx
        omega
      have hmod : (x % 128 + 128) % 256 = x % 128 + 128 := by omega
      have hvmod : (x % 128 + 128) % 128 = x % 128 := by omega
      have hlt32 : x % 128 * 2 ^ (7 * k) < 2 ^ 32 := by
        have h1 : x % 128 < 2 ^ 7 := by omega
        calc x % 128 * 2 ^ (7 * k) < 2 ^ 7 * 2 ^ (7 * k) := by
              exact (Nat.mul_lt_mul_right hpos).mpr h1
          _ = 2 ^ (7 + 7 * k) := by rw [pow_add]
          _ ≤ 2 ^ 32 := Nat.pow_le_pow_right (by omega) (by omega)
      have hor : acc ||| x % 128 * 2 ^ (7 * k) = acc + x % 128 * 2 ^ (7 * k) := by
        rw [Nat.or_comm, mul_comm (x % 128) (2 ^ (7 * k)),
          ← Nat.mul_add_lt_is_or hacc (x % 128), Nat.add_comm, mul_comm]
      simp only [writeVarIntAux, hx0, if_neg hx0, List.cons_append, readVarIntAux, hmod]
      rw [if_neg (by omega : ¬ (k + 1 > 5)),
        if_neg (by omega : ¬ (x % 128 + 128 < 128))]
      simp only [hvmod, hkshift, Nat.shiftLeft_eq, Nat.mod_eq_of_lt hlt32, hor]
      have ihres : readVarIntAux ((writeVarIntAux fuel (x / 128)).append rest) (k + 1)
            (acc + x % 128 * 2 ^ (7 * k)) =
          Except.ok (acc + x % 128 * 2 ^ (7 * k) + x / 128 * 2 ^ (7 * (k + 1)), rest) :=
        ih (k + 1) (acc + x % 128 * 2 ^ (7 * k)) (x / 128) rest
          (by omega) (by omega)
          (by
            have h1 : x % 128 ≤ 127 := by omega
            have h2 : x % 128 * 2 ^ (7 * k) ≤ 127 * 2 ^ (7 * k) :=
              Nat.mul_le_mul_right _ h1
            calc acc + x % 128 * 2 ^ (7 * k) < 2 ^ (7 * k) + 127 * 2 ^ (7 * k) := by omega
              _ = 128 * 2 ^ (7 * k) := by ring
              _ = 2 ^ (7 * (k + 1)) := by
                  rw [show 7 * (k + 1) = 7 * k + 7 by ring, pow_add]; ring)
          (by
            rw [Nat.div_lt_iff_lt_mul (by omega : 0 < 128)]
            calc x < 2 ^ (32 - 7 * k) := hx
              _ = 2 ^ (32 - 7 * (k + 1)) * 128 := by
                  rw [show (128 : Nat) = 2 ^ 7 from rfl, ← pow_add]; congr 1; omega)
      rw [ihres]
      congr 2
      have hsplit : x % 128 + 128 * (x / 128) = x := Nat.mod_add_div x 128
      have hp : 2 ^ (7 * (k + 1)) = 2 ^ (7 * k) * 128 := by
        rw [show 7 * (k + 1) = 7 * k + 7 by ring, pow_add]; rfl
      rw [hp]
      nlinarith [hsplit]

/-- The varint codec round-trips every `u32` bit pattern and leaves trailing
bytes unconsumed. -/
theorem readVarInt_writeVarInt (v : Nat) (hv : v < 2 ^ 32) (rest : List Nat) :
    readVarInt (writeVarInt v ++ rest) = .ok (v, rest) := by
  unfold readVarInt writeVarInt
  rw [Nat.mod_eq_of_lt hv]
  have h := readVarIntAux_writeVarIntAux 5 0 0 v rest (by omega) (by omega)
    (by norm_num) (by simpa using hv)
  simpa using h

/-- Casting commutes with the arithmetic shift: on a natural argument the `i32`
arithmetic shift of `var_int_length` is plain division. -/
theorem fdiv_natCast (x : Nat) : Int.fdiv (x : Int) 128 = ((x / 128 : Nat) : Int) :=
  (Int.ofNat_fdiv x 128).symm

/-- The encoder ignores surplus fuel: any two fuels sufficient for the value
produce the same bytes. -/
theorem writeVarIntAux_fuel_congr :
    ∀ (f g x : Nat), x < 128 ^ f → x < 128 ^ g → 1 ≤ f → 1 ≤ g →
      writeVarIntAux f x = writeVarIntAux g x := by
  intro f
  induction f with
  | zero => intro g x _ _ hf _; omega
  | succ f ihf =>
    intro g x hxf hxg _ hg
    obtain ⟨g', rfl⟩ : ∃ g', g = g' + 1 := ⟨g - 1, by omega⟩
    by_cases hx0 : x / 128 = 0
    · simp only [writeVarIntAux, hx0, if_true]
    · have hx128 : 128 ≤ x := by omega
      have hf1 : 1 ≤ f := by
        by_contra hf0
        have hf' : f = 0 := by omega
        subst hf'
        norm_num at hxf
        omega
      have hg1 : 1 ≤ g' := by
        by_contra hg0
        have hg'' : g' = 0 := by omega
        subst hg''
        norm_num at hxg
        omega
      have hdivf : x / 128 < 128 ^ f := by
        rw [Nat.div_lt_iff_lt_mul (by omega : 0 < 128)]
        calc x < 128 ^ (f + 1) := hxf
          _ = 128 ^ f * 128 := by rw [pow_succ]
      have hdivg : x / 128 < 128 ^ g' := by
        rw [Nat.div_lt_iff_lt_mul (by omega : 0 < 128)]
        calc x < 128 ^ (g' + 1) := hxg
          _ = 128 ^ g' * 128 := by rw [pow_succ]
      simp only [writeVarIntAux, hx0, if_false]
      rw [ihf g' (x / 128) hdivf hdivg hf1 hg1]

/-- For a natural argument with sufficient fuel, `var_int_length` terminates and
returns exactly the number of bytes the encoder emits. -/
theorem varIntLengthAux_natCast :
    ∀ (fuel : Nat) (x size : Nat), x < 128 ^ fuel → 1 ≤ fuel →
      varIntLengthAux fuel (x : Int) size = some (size + (writeVarIntAux fuel x).length - 1) := by
  intro fuel
  induction fuel with
  | zero => intro x size _ hf; omega
  | succ fuel ih =>
    intro x size hx _
    by_cases hx0 : x / 128 = 0
    · have hcast0 : Int.fdiv (x : Int) 128 = 0 := by
        rw [fdiv_natCast, hx0]; rfl
      have hw : writeVarIntAux (fuel + 1) x = [x % 128] := by
        simp only [writeVarIntAux]
        rw [if_pos hx0]
      have hstep : varIntLengthAux (fuel + 1) (x : Int) size = some size := by
        simp only [varIntLengthAux, hcast0, if_true]
      rw [hstep, hw]
      simp only [List.length_singleton]
      rfl
    · have hx128 : 128 ≤ x := by omega
      have hfuel1 : 1 ≤ fuel := by
        by_contra hf0
        have hf' : fuel = 0 := by omega
        subst hf'
        norm_num at hx
        omega
      have hdiv : x / 128 < 128 ^ fuel := by
        rw [Nat.div_lt_iff_lt_mul (by omega : 0 < 128)]
        calc x < 128 ^ (fuel + 1) := hx
          _ = 128 ^ fuel * 128 := by rw [pow_succ]
      have hne : ((x / 128 : Nat) : Int) ≠ 0 := by
        exact_mod_cast hx0
      have hlen : 0 < (writeVarIntAux fuel (x / 128)).length := by
        obtain ⟨fuel', rfl⟩ : ∃ f', fuel = f' + 1 := ⟨fuel - 1, by omega⟩
        exact writeVarIntAux_length_pos fuel' (x / 128)
      have hw : writeVarIntAux (fuel + 1) x = (x % 128 + 128) :: writeVarIntAux fuel (x / 128) := by
        simp only [writeVarIntAux]
        rw [if_neg hx0]
      have hstep : varIntLengthAux (fuel + 1) (x : Int) size =
          varIntLengthAux fuel ((x / 128 : Nat) : Int) (size + 1) := by
        simp only [varIntLengthAux, fdiv_natCast]
        rw [if_neg hne]
      rw [hstep, ih (x / 128) (size + 1) hdiv hfuel1, hw]
      simp only [List.length_cons]
      congr 1
      omega

/-- Divergence of `var_int_length` on any negative argument: the arithmetic
shift of a negative `i32` never reaches zero, so the loop never breaks and no
fuel suffices. -/
theorem varIntLengthAux_neg :
    ∀ (fuel : Nat) (x : Int) (size : Nat), x < 0 → varIntLengthAux fuel x size = none := by
  intro fuel
  induction fuel with
  | zero => intro x size _; rfl
  | succ fuel ih =>
    intro x size hx
    have hdiv : Int.fdiv x 128 < 0 := Int.fdiv_neg' hx (by omega)
    simp only [varIntLengthAux, if_neg (by omega : ¬ Int.fdiv x 128 = 0)]
    exact ih _ _ hdiv

/-- Reinterpreting a small bit pattern is the identity. -/
theorem i32val_of_lt {n : Nat} (h : n < 2 ^ 31) : i32val n = (n : Int) := by
  unfold i32val
  rw [if_pos h]

/-- Packaged form: on a non-negative `i32`, `var_int_length` with fuel 6 returns
the length of the canonical encoding produced by `write_var_int`. -/
theorem varIntLength_writeVarInt (x : Nat) (hx : x < 2 ^ 31) :
    varIntLength 6 (i32val x) = some (writeVarInt x).length := by
  have hx6 : x < 128 ^ 6 := by
    calc x < 2 ^ 31 := hx
      _ < 128 ^ 6 := by norm_num
  have hx5 : x < 128 ^ 5 := by
    calc x < 2 ^ 31 := hx
      _ < 128 ^ 5 := by norm_num
  have hmod : x % 2 ^ 32 = x := Nat.mod_eq_of_lt (by omega)
  unfold varIntLength writeVarInt
  rw [i32val_of_lt hx, varIntLengthAux_natCast 6 x 1 hx6 (by omega), hmod,
    writeVarIntAux_fuel_congr 6 5 x hx6 hx5 (by omega) (by omega)]
  congr 1
  have := writeVarIntAux_length_pos 4 x
  omega

/-! ### Helper lemmas about the round-robin selector -/

/-- Invariant of repeated selection: starting from a valid index `i`, the
`(n+1)`-st call returns `targets[(i + n) % len]` and stores the successor
index `(i + n + 1) % len`. -/
theorem roundRobin_run_spec {α : Type} (targets : List α) :
    ∀ (n i : Nat) (h : i < targets.length),
      RoundRobinSelector.run ⟨targets, i⟩ n =
        some (targets.get ⟨(i + n) % targets.length,
                Nat.mod_lt _ (by omega)⟩,
              ⟨targets, (i + n + 1) % targets.length⟩) := by
  intro n
  induction n with
  | zero =>
    intro i h
    have hmod : (i + 0) % targets.length = i := by
      rw [Nat.add_zero, Nat.mod_eq_of_lt h]
    simp only [RoundRobinSelector.run, RoundRobinSelector.nextTarget,
      List.getElem?_eq_getElem h, List.get_eq_getElem]
    simp only [hmod]
  | succ n ihn =>
    intro i h
    have hlen : 0 < targets.length := by omega
    have hi' : (i + 1) % targets.length < targets.length := Nat.mod_lt _ hlen
    have e1 : ((i + 1) % targets.length + n) % targets.length =
        (i + (n + 1)) % targets.length := by
      rw [Nat.mod_add_mod]
      congr 1
      omega
    have e2 : ((i + 1) % targets.length + n + 1) % targets.length =
        (i + (n + 1) + 1) % targets.length := by
      rw [Nat.add_assoc, Nat.mod_add_mod]
      congr 1
      omega
    simp only [RoundRobinSelector.run, RoundRobinSelector.nextTarget,
      List.getElem?_eq_getElem h]
    rw [ihn ((i + 1) % targets.length) hi']
    simp only [List.get_eq_getElem, e1, e2]

/-- Routes built from a configuration entry never carry an empty target list:
entries whose computed targets are empty are skipped. -/
theorem routeTargets_ne_nil {α : Type} (entry : ProxyEntry α) (ts : List α)
    (h : entry.routeTargets = some ts) : ts ≠ [] := by
  rcases entry with ⟨tgt, tgts⟩
  cases tgt with
  | some t =>
    simp only [ProxyEntry.routeTargets] at h
    simp at h
    rw [← h]
    simp
  | none =>
    simp only [ProxyEntry.routeTargets] at h
    by_cases he : tgts.isEmpty
    · rw [if_pos he] at h
      exact absurd h (by simp)
    · rw [if_neg he] at h
      have h2 := Option.some.inj h
      subst h2
      simpa using he

/-! ### Claims -/

/-- C1: the claim states that `write_uncompressed_packet` emits the varint
length, the varint id, and then the payload bytes, and that reading the
emission back yields the packet again.  The source never writes the payload:
for the packet with id 0 and payload `[42]` it emits exactly the two bytes
`[2, 0]` (length 2, id 0), and reading those bytes back fails with end of
input while trying to read the single payload byte the length announces. -/
theorem c1_write_uncompressed_packet_omits_payload :
    writeUncompressedPacket 6 ⟨0, [42]⟩ = some [2, 0] ∧
    readUncompressedPacket 6 [2, 0] = .err .eof := by
  decide

/-- C2: the claim states that `decrypt_next_packet` returns `None` on every
call before a full length-prefixed packet has accumulated and, on success,
drains exactly the length varint plus the packet body.  Feeding the packet
`[1, 170]` (length prefix 1, body byte 170) one byte at a time to an
initialized cryptor (abstract cipher step instantiated with the identity — the
buffering logic does not depend on the cipher): the first call is incomplete,
and the second call returns the body `[170]` but leaves `[170]` in the pending
buffer, because the source drains only `packet_length` bytes instead of the
varint plus the body.  Moreover, a call that has buffered only the first byte
of a two-byte length varint (a byte with the continuation bit, e.g. 128)
returns a propagated end-of-input error rather than `None`. -/
theorem c2_next_packet_drain_mismatch :
    Cryptor.nextPacket (fun (s : Unit) (b : Nat) => (b, s))
        (.initialized () () [] []) [1] =
      .incomplete (.initialized () () [1] []) ∧
    Cryptor.nextPacket (fun (s : Unit) (b : Nat) => (b, s))
        (.initialized () () [1] []) [170] =
      .packet [170] (.initialized () () [170] []) ∧
    Cryptor.nextPacket (fun (s : Unit) (b : Nat) => (b, s))
        (.initialized () () [] []) [128] =
      .fail .eof (.initialized () () [128] []) := by
  decide

/-- C3: for every `int32` value `v`, decoding the bytes of `write_varint(v)`
with `read_varint` yields `v` again (negatives travel via their unsigned bit
pattern and are reproduced exactly), and the boundary values 0, 127, 128,
2097151, 2147483647 and -1 encode to 1, 1, 2, 3, 5 and 5 bytes. -/
theorem c3_varint_roundtrip (v : Int) (hlow : -(2 ^ 31) ≤ v) (hhigh : v < 2 ^ 31)
    (rest : List Nat) :
    readVarInt (writeVarInt (i32bits v) ++ rest) = .ok (i32bits v, rest) ∧
    i32val (i32bits v) = v ∧
    (writeVarInt (i32bits 0)).length = 1 ∧
    (writeVarInt (i32bits 127)).length = 1 ∧
    (writeVarInt (i32bits 128)).length = 2 ∧
    (writeVarInt (i32bits 2097151)).length = 3 ∧
    (writeVarInt (i32bits 2147483647)).length = 5 ∧
    (writeVarInt (i32bits (-1))).length = 5 := by
  have h32 : ((2 : Int) ^ 32) = 4294967296 := by norm_num
  have h32n : ((2 : Nat) ^ 32) = 4294967296 := by norm_num
  have h31 : ((2 : Int) ^ 31) = 2147483648 := by norm_num
  have h31n : ((2 : Nat) ^ 31) = 2147483648 := by norm_num
  have hb : i32bits v < 2 ^ 32 := by
    unfold i32bits
    rw [h32, h32n]
    omega
  refine ⟨readVarInt_writeVarInt _ hb rest, ?_, by decide, by decide, by decide,
    by decide, by decide, by decide⟩
  unfold i32val i32bits
  rw [h32, h31, h31n] at *
  split <;> omega

/-- C3 witness: the round-trip theorem applied at the concrete value -1. -/
theorem c3_varint_roundtrip_witness :
    (-(2 ^ 31) ≤ (-1 : Int)) ∧ ((-1 : Int) < 2 ^ 31) ∧
    (readVarInt (writeVarInt (i32bits (-1)) ++ []) = .ok (i32bits (-1), []) ∧
     i32val (i32bits (-1)) = -1 ∧
     (writeVarInt (i32bits 0)).length = 1 ∧
     (writeVarInt (i32bits 127)).length = 1 ∧
     (writeVarInt (i32bits 128)).length = 2 ∧
     (writeVarInt (i32bits 2097151)).length = 3 ∧
     (writeVarInt (i32bits 2147483647)).length = 5 ∧
     (writeVarInt (i32bits (-1))).length = 5) :=
  ⟨by decide, by decide, c3_varint_roundtrip (-1) (by decide) (by decide) []⟩

/-- C4: whenever the first five bytes of the stream all carry the continuation
bit, `read_varint` consumes exactly one more byte (the sixth) and fails with
the varint-too-long error, regardless of the sixth byte and of everything that
follows — so on a stream whose first six bytes all carry the continuation bit
it fails after consuming at most six bytes, and it can neither loop forever
nor panic (the reader is a total function on finite streams). -/
theorem c4_varint_overlong (b0 b1 b2 b3 b4 b5 : Nat) (rest : List Nat)
    (h0 : 128 ≤ b0 % 256) (h1 : 128 ≤ b1 % 256) (h2 : 128 ≤ b2 % 256)
    (h3 : 128 ≤ b3 % 256) (h4 : 128 ≤ b4 % 256) :
    readVarInt (b0 :: b1 :: b2 :: b3 :: b4 :: b5 :: rest) = .error .varIntTooLong := by
  have n0 : ¬ (b0 % 256 < 128) := by omega
  have n1 : ¬ (b1 % 256 < 128) := by omega
  have n2 : ¬ (b2 % 256 < 128) := by omega
  have n3 : ¬ (b3 % 256 < 128) := by omega
  have n4 : ¬ (b4 % 256 < 128) := by omega
  simp only [readVarInt, readVarIntAux, n0, n1, n2, n3, n4, if_false]
  norm_num

/-- C4 witness: six bytes 0xFF fail with the varint-too-long error. -/
theorem c4_varint_overlong_witness :
    (128 ≤ 255 % 256) ∧
    readVarInt [255, 255, 255, 255, 255, 255] = .error .varIntTooLong :=
  ⟨by decide, c4_varint_overlong 255 255 255 255 255 255 [] (by decide) (by decide)
    (by decide) (by decide) (by decide)⟩

/-- C5: the claim states that when `data_length == 0`, `read_compressed_packet`
reads the remaining packet bytes (`packet_length` minus the length of the
`data_length` varint) as the body.  The source always reads exactly
`data_length` bytes: on the stream `[3, 0, 0, 42]` (packet_length 3,
data_length 0, followed by the two-byte body `[0, 42]`) it returns an envelope
with an empty body and leaves `[0, 42]` unconsumed in the stream — and the
resulting envelope can never be decompressed, since its own `decompress`
expects the uncompressed packet in the body when `data_length == 0` and fails
reading a packet id from the empty body. -/
theorem c5_read_compressed_zero_data_length :
    readCompressedPacket [3, 0, 0, 42] = .ok (⟨3, 0, []⟩, [0, 42]) ∧
    CompressedPacket.decompress 6 (fun _ => none) ⟨3, 0, []⟩ = .err :=
  ⟨rfl, rfl⟩

/-- C6: decompressing an envelope with `data_length == 0` whose body is the
canonical serialization `write_varint(id) ++ payload` returns the packet
`{id, payload}` (the body reinterpreted verbatim as the uncompressed packet),
decompressing an envelope with `data_length > 0` whose body inflates to that
serialization returns the same packet, and a body the inflater rejects yields
an error rather than a panic or divergence. -/
theorem c6_decompress (inflate : List Nat → Option (List Nat)) (pl dl id : Nat)
    (payload body : List Nat) (hid : id < 2 ^ 31) :
    CompressedPacket.decompress 6 inflate ⟨pl, 0, writeVarInt id ++ payload⟩ =
      .ok ⟨id, payload⟩ ∧
    (dl ≠ 0 → inflate body = some (writeVarInt id ++ payload) →
      CompressedPacket.decompress 6 inflate ⟨pl, dl, body⟩ = .ok ⟨id, payload⟩) ∧
    (dl ≠ 0 → inflate body = none →
      CompressedPacket.decompress 6 inflate ⟨pl, dl, body⟩ = .err) := by
  have hlt : id < 2 ^ 32 := by
    have : (2 : Nat) ^ 31 < 2 ^ 32 := by norm_num
    omega
  have hread : readVarInt (writeVarInt id ++ payload) = .ok (id, payload) :=
    readVarInt_writeVarInt id hlt payload
  have hlen : varIntLength 6 (i32val id) = some (writeVarInt id).length :=
    varIntLength_writeVarInt id hid
  have hdrop : (writeVarInt id ++ payload).drop (writeVarInt id).length = payload :=
    List.drop_left _ _
  have hnlt : ¬ ((writeVarInt id ++ payload).length < (writeVarInt id).length) := by
    rw [List.length_append]
    omega
  refine ⟨?_, ?_, ?_⟩
  · simp only [CompressedPacket.decompress, if_true, hread, hlen, if_neg hnlt, hdrop]
  · intro hdl hinf
    simp only [CompressedPacket.decompress, if_neg hdl, hinf, hread, hlen,
      if_neg hnlt, hdrop]
  · intro hdl hinf
    simp only [CompressedPacket.decompress, if_neg hdl, hinf]

/-- C6 witness: the decompression theorem applied to the packet with id 1 and
payload `[7, 8]`, under a constant inflater. -/
theorem c6_decompress_witness :
    ((1 : Nat) < 2 ^ 31) ∧
    (CompressedPacket.decompress 6 (fun _ => some (writeVarInt 1 ++ [7, 8]))
        ⟨3, 0, writeVarInt 1 ++ [7, 8]⟩ = .ok ⟨1, [7, 8]⟩ ∧
     ((1 : Nat) ≠ 0 →
      (fun (_ : List Nat) => some (writeVarInt 1 ++ [7, 8])) [9] =
        some (writeVarInt 1 ++ [7, 8]) →
      CompressedPacket.decompress 6 (fun _ => some (writeVarInt 1 ++ [7, 8]))
        ⟨3, 1, [9]⟩ = .ok ⟨1, [7, 8]⟩) ∧
     ((1 : Nat) ≠ 0 →
      (fun (_ : List Nat) => some (writeVarInt 1 ++ [7, 8])) [9] = none →
      CompressedPacket.decompress 6 (fun _ => some (writeVarInt 1 ++ [7, 8]))
        ⟨3, 1, [9]⟩ = .err)) :=
  ⟨by decide, c6_decompress (fun _ => some (writeVarInt 1 ++ [7, 8])) 3 1 1 [7, 8] [9]
    (by decide)⟩

/-- C7: the claim states that `encrypt` of an initialized cryptor returns the
CFB-8 encryption of its input.  The source body of `encrypt_packet` is a bare
todo macro: every call panics unconditionally and no call ever returns a
ciphertext, for any cryptor state and any input. -/
theorem c7_encrypt_packet_unimplemented (c : Cryptor Unit) (data : List Nat) :
    Cryptor.encryptPacket c data = none :=
  rfl

/-- C8 counterexample: the claim states that an empty target list is rejected
when a selector is constructed and that every constructed selector's
`next_target` returns an element of the list without panicking.  Both selector
constructors accept the empty list, and the very first selection panics
(index out of bounds for round-robin, empty `gen_range` for random) — `none`
models the panic, so no element is returned. -/
theorem c8_empty_selector_accepted :
    (RoundRobinSelector.new ([] : List Nat)).nextTarget = none ∧
    (RandomSelector.new ([] : List Nat)).nextTarget 0 = none := by
  decide

/-- C8 amended: empty target lists are rejected when routes are built from the
configuration (an entry whose computed target list is empty is skipped and
produces no route), but the selector constructors themselves accept empty
lists and panic at selection time; for every route built from the
configuration the bridged target exists, and for every selector constructed
with a non-empty target list, every selection returns an element of the list
(round-robin at any call position, random for any in-range draw). -/
theorem c8_selectors_amended {α : Type} (entry : ProxyEntry α) (ts : List α)
    (hts : entry.routeTargets = some ts) (sel : List α) (hsel : sel ≠ [])
    (n pick : Nat) (hpick : pick < sel.length) :
    ts ≠ [] ∧ (handleTarget ts).isSome = true ∧
    (∃ t s', (RoundRobinSelector.new sel).run n = some (t, s') ∧ t ∈ sel) ∧
    (∃ t, (RandomSelector.new sel).nextTarget pick = some t ∧ t ∈ sel) := by
  have hlen : 0 < sel.length := List.length_pos.mpr hsel
  have hts' : ts ≠ [] := routeTargets_ne_nil entry ts hts
  refine ⟨hts', ?_, ?_, ?_⟩
  · unfold handleTarget
    cases ts with
    | nil => exact absurd rfl hts'
    | cons a l => rfl
  · have hrr := roundRobin_run_spec sel n 0 hlen
    exact ⟨_, _, hrr, List.get_mem _ _ _⟩
  · have hrand : (RandomSelector.new sel).nextTarget pick =
        some (sel.get ⟨pick, hpick⟩) := by
      simp only [RandomSelector.new, RandomSelector.nextTarget]
      rw [if_neg (by omega : ¬ (sel.length = 0))]
      simp [List.getElem?_eq_getElem hpick]
    exact ⟨_, hrand, List.get_mem _ _ _⟩

/-- C8 witness: the amended theorem at a concrete skipped-or-built entry and a
singleton target list. -/
theorem c8_selectors_amended_witness :
    (ProxyEntry.routeTargets ⟨some 7, ([] : List Nat)⟩ = some [7]) ∧
    (([5] : List Nat) ≠ []) ∧ (0 < ([5] : List Nat).length) ∧
    (([7] : List Nat) ≠ [] ∧ (handleTarget [7]).isSome = true ∧
     (∃ t s', (RoundRobinSelector.new [5]).run 0 = some (t, s') ∧ t ∈ [5]) ∧
     (∃ t, (RandomSelector.new [5]).nextTarget 0 = some t ∧ t ∈ [5])) :=
  ⟨by decide, by decide, by decide,
    c8_selectors_amended ⟨some 7, []⟩ [7] (by decide) [5] (by decide) 0 0 (by decide)⟩

/-- C9: for every non-empty target list the round-robin selector is
deterministic and cyclic — the selection at call position `n` (counting from 0
after construction) returns `targets[n % len]`, and the stored index advances
to `(n + 1) % len`; in particular the first call returns `targets[0]`. -/
theorem c9_round_robin_cycles {α : Type} (targets : List α) (h : targets ≠ [])
    (n : Nat) :
    (RoundRobinSelector.new targets).run n =
      some (targets.get ⟨n % targets.length,
              Nat.mod_lt _ (List.length_pos.mpr h)⟩,
            ⟨targets, (n + 1) % targets.length⟩) := by
  have hlen : 0 < targets.length := List.length_pos.mpr h
  have hrr := roundRobin_run_spec targets n 0 hlen
  simpa using hrr

/-- C9 witness: with targets `[1, 2, 3]`, five successive selections return
1, 2, 3, 1, 2. -/
theorem c9_round_robin_cycles_witness :
    (([1, 2, 3] : List Nat) ≠ []) ∧
    (RoundRobinSelector.new [1, 2, 3]).run 0 = some (1, ⟨[1, 2, 3], 1⟩) ∧
    (RoundRobinSelector.new [1, 2, 3]).run 1 = some (2, ⟨[1, 2, 3], 2⟩) ∧
    (RoundRobinSelector.new [1, 2, 3]).run 2 = some (3, ⟨[1, 2, 3], 0⟩) ∧
    (RoundRobinSelector.new [1, 2, 3]).run 3 = some (1, ⟨[1, 2, 3], 1⟩) ∧
    (RoundRobinSelector.new [1, 2, 3]).run 4 = some (2, ⟨[1, 2, 3], 2⟩) :=
  ⟨by decide,
    c9_round_robin_cycles [1, 2, 3] (by decide) 0,
    c9_round_robin_cycles [1, 2, 3] (by decide) 1,
    c9_round_robin_cycles [1, 2, 3] (by decide) 2,
    c9_round_robin_cycles [1, 2, 3] (by decide) 3,
    c9_round_robin_cycles [1, 2, 3] (by decide) 4⟩

/-- C10: the claim states that `read_uncompressed_packet` terminates with a
packet or an error on every finite stream, never panicking.  Two concrete
streams refute it: on `[5, 255, 255, 255, 255, 15]` the packet id decodes to
the bit pattern of -1, and the internal `var_int_length` loop never terminates
(no fuel suffices); on `[1, 128, 1]` the declared length 1 is smaller than the
two-byte varint id that follows, and the usize subtraction
`length - var_int_length(id)` underflows — a panic, not a packet or error. -/
theorem c10_read_uncompressed_packet_unsafe :
    (∀ fuel : Nat, readUncompressedPacket fuel [5, 255, 255, 255, 255, 15] = .diverged) ∧
    readUncompressedPacket 6 [1, 128, 1] = .panicked := by
  constructor
  · intro fuel
    have h1 : readVarInt [5, 255, 255, 255, 255, 15] =
        .ok (5, [255, 255, 255, 255, 15]) := rfl
    have h2 : readVarInt [255, 255, 255, 255, 15] = .ok (4294967295, []) := rfl
    have h3 : usizeOfI32 5 = 5 := rfl
    have hneg : varIntLength fuel (i32val 4294967295) = none := by
      apply varIntLengthAux_neg
      decide
    simp only [readUncompressedPacket, h1, h2, h3, hneg]
    norm_num
  · decide

end Magma
